import Mathlib

/-!
The response-mapping layer of `pizza.go` (package `pizza` of go-pizza)

A shallow embedding of the pure part of package `pizza`: the cents conversion
`stringNumberToCents`, and what `GetDeliveryStores`, `GetMenuItems` and
`PriceOrder` do with a decoded response.

Conventions.
* A Go `string` is a Lean `String`.  The only bytes the code inspects are the
  ASCII bytes `.`, `+`, `-` and `0`..`9`, each a single UTF-8 byte that never
  occurs inside a multi-byte sequence, so reading the string character by
  character or byte by byte gives the same results.
* A Go result `(v, err)` is the pair `(v, err)` with `err : Option GoError`,
  `none` being `nil`.  A nil pointer or nil slice result is `none`.
* `int` is `intSize` bits wide (32 or 64); `intSize` is the first argument of
  every function whose result depends on it.
* The HTTP exchange `c.do` is not embedded: the functions take its outcome
  (the error it returned and the response value it decoded) as arguments.
* `strings.Replace`, `strconv.ParseUint`, `strconv.ParseInt`, `strconv.Atoi` and
  `json.Number.Int64` belong to the Go standard library; they are transcribed
  from the library's sources, the `strconv` functions for base 10, the only
  base the package uses.
-/

namespace pizza

/-! ## Go values -/

/-- The two sentinel errors of package `strconv`. -/
inductive ErrKind where
  | ErrSyntax
  | ErrRange
  deriving DecidableEq, Repr

/-- A Go `error` value: a `*strconv.NumError` or an `errors.New` string. -/
inductive GoError where
  | NumError (Func : String) (Num : String) (Err : ErrKind)
  | errorString (msg : String)
  deriving DecidableEq, Repr

/-- Wraps an integer to the signed two's-complement range of `bits` bits
(a Go conversion `int64(x)` or `int(x)`, or signed arithmetic that wraps). -/
def wrapSigned (bits : Nat) (z : Int) : Int :=
  (z + 2 ^ (bits - 1)) % 2 ^ bits - 2 ^ (bits - 1)

/-! ## Package `strings` -/

namespace strings

/-- `Replace` for a non-empty `old`: walks `s`, replacing the first `n`
non-overlapping instances of `old`; `skip` counts the characters of a matched
instance that are still to be dropped. -/
def replaceGo (old new : List Char) : Nat → Nat → List Char → List Char
  | _, _, [] => []
  | n, skip + 1, _ :: cs => replaceGo old new n skip cs
  | 0, 0, c :: cs => c :: cs
  | n + 1, 0, c :: cs =>
    if old.isPrefixOf (c :: cs) then new ++ replaceGo old new n (old.length - 1) cs
    else c :: replaceGo old new (n + 1) 0 cs

/-- `Replace` for an empty `old`: `new` is inserted before the first `n`
characters, the end of the string counting as one more place. -/
def insertGo (new : List Char) : Nat → List Char → List Char
  | 0, s => s
  | _ + 1, [] => new
  | n + 1, c :: cs => new ++ c :: insertGo new n cs

/-- Go `strings.Replace(s, old, new, n)`: a copy of `s` with the first `n`
non-overlapping instances of `old` replaced by `new`; all of them when
`n < 0`. -/
def Replace (s old new : String) (n : Int) : String :=
  if old = new ∨ n = 0 then s
  else
    let k := if n < 0 then s.data.length + 1 else n.toNat
    if old.data = [] then String.mk (insertGo new.data k s.data)
    else String.mk (replaceGo old.data new.data k 0 s.data)

end strings

/-! ## Package `strconv`, base 10 -/

namespace strconv

/-- Go `syntaxError(fn, str)`. -/
def syntaxError (fn str : String) : GoError := GoError.NumError fn str ErrKind.ErrSyntax

/-- Go `rangeError(fn, str)`. -/
def rangeError (fn str : String) : GoError := GoError.NumError fn str ErrKind.ErrRange

/-- The digit loop of `ParseUint` for base 10: `n` is the `uint64`
accumulator, `s0` the whole input (for the error value), `maxVal` the largest
value of the requested bit size. -/
def parseUintLoop (s0 : String) (maxVal : Nat) : Nat → List Char → Nat × Option GoError
  | n, [] => (n, none)
  | n, c :: cs =>
    if 48 ≤ c.toNat ∧ c.toNat ≤ 57 then
      let d := c.toNat - 48
      -- cutoff = maxUint64/10 + 1: `n*10` overflows from there on
      if n ≥ (2 ^ 64 - 1) / 10 + 1 then (maxVal, some (rangeError "ParseUint" s0))
      else
        let n10 := (n * 10) % 2 ^ 64
        let n1 := (n10 + d) % 2 ^ 64
        if n1 < n10 ∨ n1 > maxVal then (maxVal, some (rangeError "ParseUint" s0))
        else parseUintLoop s0 maxVal n1 cs
    else (0, some (syntaxError "ParseUint" s0))

/-- Go `strconv.ParseUint(s, 10, bitSize)`, for `0 ≤ bitSize ≤ 64`;
`bitSize = 0` stands for `intSize`. -/
def ParseUint10 (intSize : Nat) (s : String) (bitSize : Nat) : Nat × Option GoError :=
  if s = "" then (0, some (syntaxError "ParseUint" s))
  else
    let bitSize := if bitSize = 0 then intSize else bitSize
    let maxVal := 2 ^ bitSize - 1
    parseUintLoop s maxVal 0 s.data

/-- Go `strconv.ParseInt(s, 10, bitSize)`, for `0 ≤ bitSize ≤ 64`. -/
def ParseInt10 (intSize : Nat) (s : String) (bitSize : Nat) : Int × Option GoError :=
  if s = "" then (0, some (syntaxError "ParseInt" s))
  else
    let s0 := s
    -- pick off leading sign
    let neg := s.data.head? = some '-'
    let s := if s.data.head? = some '+' ∨ s.data.head? = some '-' then String.mk s.data.tail else s
    -- convert unsigned and check range
    let (un, err) := ParseUint10 intSize s bitSize
    match err with
    | some (GoError.NumError _ _ ErrKind.ErrSyntax) => (0, some (syntaxError "ParseInt" s0))
    | some (GoError.errorString _) => (0, err)
    | _ =>
      let bitSize := if bitSize = 0 then intSize else bitSize
      let cutoff := 2 ^ (bitSize - 1)
      if ¬ neg ∧ un ≥ cutoff then (cutoff - 1, some (rangeError "ParseInt" s0))
      else if neg ∧ un > cutoff then (-(cutoff : Int), some (rangeError "ParseInt" s0))
      else
        let n := wrapSigned 64 un
        let n := if neg then wrapSigned 64 (-n) else n
        (n, none)

/-- Go `strconv.Atoi(s)`: `ParseInt(s, 10, 0)` converted to `int`, the
error's `Func` renamed to `Atoi` (the fast path that recent Go versions take
for short inputs returns the same results). -/
def Atoi (intSize : Nat) (s : String) : Int × Option GoError :=
  let (i64, err) := ParseInt10 intSize s 0
  let err := match err with
    | some (GoError.NumError _ num e) => some (GoError.NumError "Atoi" num e)
    | other => other
  (wrapSigned intSize i64, err)

end strconv

/-! ## `pizza.go` -/

/-- Go `stringNumberToCents` (pizza.go:26). -/
def stringNumberToCents (intSize : Nat) (s : String) : Int × Option GoError :=
  let raw := strings.Replace s "." "" 1
  strconv.Atoi intSize raw

/-- Go `Store` (pizza.go:273). -/
structure Store where
  ID : String
  DeliveryMinutes : Int
  deriving DecidableEq, Repr

/-- Go `MenuItem` (pizza.go:278). -/
structure MenuItem where
  Code : String
  Name : String
  PriceCents : Int
  deriving DecidableEq, Repr

/-- Go `OrderPrice` (pizza.go:257). -/
structure OrderPrice where
  ID : String
  DeliveryCents : Int
  TaxCents : Int
  CustomerCents : Int
  deriving DecidableEq, Repr

/-- The anonymous struct `Delivery` of the store-locator response (pizza.go:101). -/
structure DeliveryWait where
  Min : Int
  deriving DecidableEq, Repr

/-- The anonymous struct `ServiceMethodEstimatedWaitMinutes` (pizza.go:100). -/
structure EstimatedWait where
  Delivery : DeliveryWait
  deriving DecidableEq, Repr

/-- One element of `resp.Stores` in `GetDeliveryStores` (pizza.go:96). -/
structure StoreRecord where
  StoreID : String
  IsDeliveryStore : Bool
  ServiceMethodEstimatedWaitMinutes : EstimatedWait
  deriving DecidableEq, Repr

/-- The response value of `GetDeliveryStores` (pizza.go:95). -/
structure StoreLocatorResponse where
  Stores : List StoreRecord
  deriving DecidableEq, Repr

/-- Go `Client.GetDeliveryStores` from the return of `c.do` on (pizza.go:108):
`err` is the error `c.do` returned, `resp` the value it decoded into. -/
def GetDeliveryStores (err : Option GoError) (resp : StoreLocatorResponse) :
    Option (List Store) × Option GoError :=
  match err with
  | some e => (none, some e)
  | none =>
    let stores := resp.Stores.foldl
      (fun stores s =>
        if s.IsDeliveryStore then
          stores ++ [{ ID := s.StoreID,
                       DeliveryMinutes := s.ServiceMethodEstimatedWaitMinutes.Delivery.Min }]
        else stores)
      []
    (some stores, none)

/-- One value of `resp.Variants` in `GetMenuItems` (pizza.go:130). -/
structure Variant where
  Code : String
  Price : String
  Name : String
  deriving DecidableEq, Repr

/-- The loop of `GetMenuItems` (pizza.go:143): `items` is the slice built so
far, the list holds the variants `range` has still to visit. -/
def menuItemsLoop (intSize : Nat) :
    List (String × Variant) → List MenuItem → Option (List MenuItem) × Option GoError
  | [], items => (some items, none)
  | (_, v) :: rest, items =>
    match stringNumberToCents intSize v.Price with
    | (_, some e) => (none, some e)
    | (price, none) =>
      menuItemsLoop intSize rest
        (items ++ [{ Code := v.Code, Name := v.Name, PriceCents := price }])

/-- Go `Client.GetMenuItems` from the return of `c.do` on (pizza.go:137).  The
map `resp.Variants` is given as its entries in the order in which `range`
visits them, an order Go leaves unspecified. -/
def GetMenuItems (intSize : Nat) (err : Option GoError) (variants : List (String × Variant)) :
    Option (List MenuItem) × Option GoError :=
  match err with
  | some e => (none, some e)
  | none => menuItemsLoop intSize variants []

/-- A value stored under `interface{}` in the request body. -/
inductive Value where
  | str (s : String)
  | int (n : Int)
  | bool (b : Bool)
  deriving DecidableEq, Repr

/-- The `reqProducts` loop of `PriceOrder` (pizza.go:160-169).  The map
`products` is given as its entries in the order in which `range` visits
them; a `map[string]interface{}` is the list of its key/value pairs. -/
def reqProducts (products : List (String × Int)) : List (List (String × Value)) :=
  products.foldl
    (fun reqProducts p =>
      reqProducts ++ [[("Code", Value.str p.1),
                       ("ID", Value.int 1),
                       ("isNew", Value.bool true),
                       ("Qty", Value.int p.2),
                       ("AutoRemove", Value.bool false)]])
    []

/-- The anonymous struct `AmountsBreakdown` of the price-order response
(pizza.go:212); a `json.Number` is the string of its literal. -/
structure AmountsBreakdown where
  DeliveryFee : String
  Tax : String
  Customer : String
  deriving DecidableEq, Repr

/-- The anonymous struct `Order` of the price-order response (pizza.go:210). -/
structure Order where
  OrderID : String
  AmountsBreakdown : AmountsBreakdown
  deriving DecidableEq, Repr

/-- The response value of `PriceOrder` (pizza.go:208). -/
structure PriceOrderResponse where
  Status : String
  Order : Order
  deriving DecidableEq, Repr

/-- Go `json.Number.Int64`: `strconv.ParseInt(string(n), 10, 64)`. -/
def Int64 (intSize : Nat) (n : String) : Int × Option GoError :=
  strconv.ParseInt10 intSize n 64

/-- Go `Client.PriceOrder` from the return of `c.do` on (pizza.go:220). -/
def PriceOrder (intSize : Nat) (err : Option GoError) (resp : PriceOrderResponse) :
    Option OrderPrice × Option GoError :=
  match err with
  | some e => (none, some e)
  | none =>
    match Int64 intSize resp.Status with
    | (_, some e) => (none, some e)
    | (status, none) =>
      if status = -1 then
        (none, some (GoError.errorString "dominos does not like this order for some reason"))
      else
        match stringNumberToCents intSize resp.Order.AmountsBreakdown.DeliveryFee with
        | (_, some e) => (none, some e)
        | (delivery, none) =>
          match stringNumberToCents intSize resp.Order.AmountsBreakdown.Tax with
          | (_, some e) => (none, some e)
          | (tax, none) =>
            match stringNumberToCents intSize resp.Order.AmountsBreakdown.Customer with
            | (_, some e) => (none, some e)
            | (customer, none) =>
              (some { ID := resp.Order.OrderID,
                      DeliveryCents := delivery,
                      TaxCents := tax,
                      CustomerCents := customer }, none)

/-! ## Reference notions used in the statements -/

/-- An ASCII decimal digit. -/
def isDigit (c : Char) : Bool := decide (48 ≤ c.toNat) && decide (c.toNat ≤ 57)

/-- The number written by the digit characters `ds` after the number `n`:
`n` followed by `ds`, read in base 10. -/
def decValFrom (n : Nat) (ds : List Char) : Nat :=
  ds.foldl (fun a c => a * 10 + (c.toNat - 48)) n

/-- The number a run of decimal digits writes in base 10. -/
def decVal (ds : List Char) : Nat := decValFrom 0 ds

/-- The value of a non-empty run of decimal digits; `none` for anything else. -/
def digitsValue (ds : List Char) : Option Nat :=
  if ds ≠ [] ∧ ds.all isDigit = true then some (decVal ds) else none

/-- The integer a string writes in base 10, with no bound on its size: an
optional sign `+` or `-` followed by one or more decimal digits; `none` for
every other string. -/
def decimalInt (s : List Char) : Option Int :=
  match s with
  | [] => none
  | c :: cs =>
    if c = '-' then (digitsValue cs).map (fun (v : Nat) => -(v : Int))
    else if c = '+' then (digitsValue cs).map (fun (v : Nat) => (v : Int))
    else (digitsValue (c :: cs)).map (fun (v : Nat) => (v : Int))

/-- A well-formed two-decimal numeric string: one or more decimal digits, a
point, and exactly two decimal digits. -/
def TwoDecimal (s : String) : Prop :=
  ∃ (w : List Char) (a b : Char), w ≠ [] ∧ (∀ c ∈ w, isDigit c = true) ∧
    isDigit a = true ∧ isDigit b = true ∧ s = String.mk (w ++ ['.', a, b])

/-- A decision procedure for `TwoDecimal`, reading the string from its end. -/
def twoDecimalCheck (s : String) : Bool :=
  match s.data.reverse with
  | b :: a :: p :: w => isDigit b && isDigit a && (p == '.') && !w.isEmpty && w.all isDigit
  | _ => false

/-- A run of digits with no superfluous leading zero: the single digit `0`, or
a run that does not start with `0`. -/
def NoLeadingZero (w : List Char) : Prop :=
  w = ['0'] ∨ w.head? ≠ some '0'

/-- The tail of `ParseInt` after the call of `ParseUint`: the error and range
checks and the signed result, as a function of what `ParseUint` returned. -/
def parseIntFinish (s0 : String) (neg : Bool) (bits : Nat) (r : Nat × Option GoError) :
    Int × Option GoError :=
  match r.2 with
  | some (GoError.NumError _ _ ErrKind.ErrSyntax) => (0, some (strconv.syntaxError "ParseInt" s0))
  | some (GoError.errorString _) => (0, r.2)
  | _ =>
    if neg = false ∧ r.1 ≥ 2 ^ (bits - 1) then
      (2 ^ (bits - 1) - 1, some (strconv.rangeError "ParseInt" s0))
    else if neg = true ∧ r.1 > 2 ^ (bits - 1) then
      (-(2 ^ (bits - 1) : Int), some (strconv.rangeError "ParseInt" s0))
    else (if neg then wrapSigned 64 (-(wrapSigned 64 r.1)) else wrapSigned 64 r.1, none)

/-- Reads the `(Code, Qty)` pair back from one entry of the request's
`Products` list. -/
def readProduct (entry : List (String × Value)) : Option (String × Int) :=
  match entry.lookup "Code", entry.lookup "Qty" with
  | some (Value.str code), some (Value.int qty) => some (code, qty)
  | _, _ => none

/-! ## The digit loop -/

theorem decValFrom_cons (n : Nat) (c : Char) (cs : List Char) :
    decValFrom n (c :: cs) = decValFrom (n * 10 + (c.toNat - 48)) cs := rfl

theorem decValFrom_append (n : Nat) (xs ys : List Char) :
    decValFrom n (xs ++ ys) = decValFrom (decValFrom n xs) ys := by
  simp [decValFrom, List.foldl_append]

theorem le_decValFrom (ds : List Char) : ∀ n, n ≤ decValFrom n ds := by
  induction ds with
  | nil => intro n; exact Nat.le_refl n
  | cons c cs ih =>
    intro n
    rw [decValFrom_cons]
    have := ih (n * 10 + (c.toNat - 48))
    omega

theorem isDigit_iff (c : Char) : isDigit c = true ↔ 48 ≤ c.toNat ∧ c.toNat ≤ 57 := by
  simp [isDigit]

/-- On a run of digits the loop of `ParseUint` computes the base-10 value, or
reports a range error once the value exceeds `maxVal`. -/
theorem parseUintLoop_digits (s0 : String) (maxVal : Nat) (hmax : maxVal < 2 ^ 64) :
    ∀ (ds : List Char) (n : Nat), n ≤ maxVal → (∀ c ∈ ds, isDigit c = true) →
      strconv.parseUintLoop s0 maxVal n ds =
        if decValFrom n ds ≤ maxVal then (decValFrom n ds, none)
        else (maxVal, some (strconv.rangeError "ParseUint" s0)) := by
  intro ds
  induction ds with
  | nil => intro n hn _; simp [strconv.parseUintLoop, decValFrom, hn]
  | cons c cs ih =>
    intro n hn hds
    have hc : 48 ≤ c.toNat ∧ c.toNat ≤ 57 := (isDigit_iff c).1 (hds c (List.mem_cons_self c cs))
    have hcs : ∀ x ∈ cs, isDigit x = true := fun x hx => hds x (List.mem_cons_of_mem c hx)
    have hle := le_decValFrom cs (n * 10 + (c.toNat - 48))
    rw [decValFrom_cons]
    unfold strconv.parseUintLoop
    rw [if_pos hc]
    norm_num only at hmax ⊢
    by_cases h1 : 1844674407370955162 ≤ n
    · rw [if_pos h1, if_neg (by omega)]
    · rw [if_neg h1]
      have e10 : n * 10 % 18446744073709551616 = n * 10 := Nat.mod_eq_of_lt (by omega)
      simp only [e10]
      by_cases h2 : n * 10 + (c.toNat - 48) < 18446744073709551616
      · have e1 : (n * 10 + (c.toNat - 48)) % 18446744073709551616 = n * 10 + (c.toNat - 48) :=
          Nat.mod_eq_of_lt h2
        simp only [e1]
        by_cases h3 : n * 10 + (c.toNat - 48) > maxVal
        · rw [if_pos (Or.inr h3), if_neg (by omega)]
        · rw [if_neg (by omega)]
          exact ih _ (by omega) hcs
      · rw [if_pos (Or.inl (by omega)), if_neg (by omega)]

/-- A character that is not a digit makes the loop of `ParseUint` fail: with a
syntax error, or with a range error when the digits before it overflow. -/
theorem parseUintLoop_bad (s0 : String) (maxVal : Nat) :
    ∀ (ds : List Char) (n : Nat), (∃ c ∈ ds, isDigit c = false) →
      strconv.parseUintLoop s0 maxVal n ds = (0, some (strconv.syntaxError "ParseUint" s0)) ∨
      strconv.parseUintLoop s0 maxVal n ds = (maxVal, some (strconv.rangeError "ParseUint" s0)) := by
  intro ds
  induction ds with
  | nil => intro n h; simp at h
  | cons c cs ih =>
    intro n h
    unfold strconv.parseUintLoop
    by_cases hc : 48 ≤ c.toNat ∧ c.toNat ≤ 57
    · rw [if_pos hc]
      have hcs : ∃ x ∈ cs, isDigit x = false := by
        obtain ⟨x, hx, hxd⟩ := h
        rcases List.mem_cons.1 hx with rfl | hx
        · have := (isDigit_iff x).2 hc
          simp [this] at hxd
        · exact ⟨x, hx, hxd⟩
      dsimp only
      split
      · exact Or.inr rfl
      · split
        · exact Or.inr rfl
        · exact ih _ hcs
    · rw [if_neg hc]
      exact Or.inl rfl

/-! ## `ParseUint` and `ParseInt` against the unbounded reading -/

theorem digitsValue_eq_some {ds : List Char} {v : Nat} (h : digitsValue ds = some v) :
    ds ≠ [] ∧ (∀ c ∈ ds, isDigit c = true) ∧ v = decVal ds := by
  unfold digitsValue at h
  split at h
  · rename_i hd
    refine ⟨hd.1, ?_, ?_⟩
    · simpa using hd.2
    · simpa using h.symm
  · simp at h

theorem digitsValue_eq_none {ds : List Char} (h : digitsValue ds = none) :
    ds = [] ∨ ∃ c ∈ ds, isDigit c = false := by
  unfold digitsValue at h
  split at h
  · simp at h
  · rename_i hd
    by_cases he : ds = []
    · exact Or.inl he
    · right
      simpa [he] using hd

theorem digitsValue_of_digits {ds : List Char} (hne : ds ≠ [])
    (hd : ∀ c ∈ ds, isDigit c = true) : digitsValue ds = some (decVal ds) := by
  unfold digitsValue
  rw [if_pos]
  exact ⟨hne, by simpa using hd⟩

theorem mk_ne_empty {l : List Char} (h : l ≠ []) : String.mk l ≠ "" := by
  intro he
  apply h
  have := congrArg String.data he
  simpa using this

theorem ParseUint10_digits (intSize bitSize : Nat) (ds : List Char) (hne : ds ≠ [])
    (hd : ∀ c ∈ ds, isDigit c = true)
    (hb : (if bitSize = 0 then intSize else bitSize) ≤ 64) :
    strconv.ParseUint10 intSize (String.mk ds) bitSize =
      if decVal ds ≤ 2 ^ (if bitSize = 0 then intSize else bitSize) - 1 then (decVal ds, none)
      else (2 ^ (if bitSize = 0 then intSize else bitSize) - 1,
            some (strconv.rangeError "ParseUint" (String.mk ds))) := by
  unfold strconv.ParseUint10
  rw [if_neg (mk_ne_empty hne)]
  have hpow : 2 ^ (if bitSize = 0 then intSize else bitSize) ≤ 2 ^ 64 :=
    Nat.pow_le_pow_right (by decide) hb
  have hpos : 0 < 2 ^ (if bitSize = 0 then intSize else bitSize) := Nat.pow_pos (by decide)
  exact parseUintLoop_digits _ _ (by omega) ds 0 (Nat.zero_le _) hd

theorem ParseUint10_bad (intSize bitSize : Nat) (ds : List Char)
    (h : digitsValue ds = none) :
    strconv.ParseUint10 intSize (String.mk ds) bitSize =
        (0, some (strconv.syntaxError "ParseUint" (String.mk ds))) ∨
    strconv.ParseUint10 intSize (String.mk ds) bitSize =
        (2 ^ (if bitSize = 0 then intSize else bitSize) - 1,
          some (strconv.rangeError "ParseUint" (String.mk ds))) := by
  unfold strconv.ParseUint10
  rcases digitsValue_eq_none h with rfl | hbad
  · left; rfl
  · have hne : ds ≠ [] := by
      rintro rfl
      simp at hbad
    rw [if_neg (mk_ne_empty hne)]
    exact parseUintLoop_bad _ _ ds 0 hbad

theorem ParseInt10_minus (intSize bitSize : Nat) (cs : List Char) :
    strconv.ParseInt10 intSize (String.mk ('-' :: cs)) bitSize =
      parseIntFinish (String.mk ('-' :: cs)) true (if bitSize = 0 then intSize else bitSize)
        (strconv.ParseUint10 intSize (String.mk cs) bitSize) := by
  unfold strconv.ParseInt10 parseIntFinish
  rw [if_neg (mk_ne_empty (List.cons_ne_nil _ _))]
  simp

theorem ParseInt10_plus (intSize bitSize : Nat) (cs : List Char) :
    strconv.ParseInt10 intSize (String.mk ('+' :: cs)) bitSize =
      parseIntFinish (String.mk ('+' :: cs)) false (if bitSize = 0 then intSize else bitSize)
        (strconv.ParseUint10 intSize (String.mk cs) bitSize) := by
  unfold strconv.ParseInt10 parseIntFinish
  rw [if_neg (mk_ne_empty (List.cons_ne_nil _ _))]
  simp

theorem ParseInt10_unsigned (intSize bitSize : Nat) (c : Char) (cs : List Char)
    (hm : c ≠ '-') (hp : c ≠ '+') :
    strconv.ParseInt10 intSize (String.mk (c :: cs)) bitSize =
      parseIntFinish (String.mk (c :: cs)) false (if bitSize = 0 then intSize else bitSize)
        (strconv.ParseUint10 intSize (String.mk (c :: cs)) bitSize) := by
  unfold strconv.ParseInt10 parseIntFinish
  rw [if_neg (mk_ne_empty (List.cons_ne_nil _ _))]
  simp [hm, hp]

theorem wrapSigned_of_range (bits : Nat) (hb : bits = 32 ∨ bits = 64) (z : Int)
    (h1 : -(2 ^ (bits - 1)) ≤ z) (h2 : z < 2 ^ (bits - 1)) : wrapSigned bits z = z := by
  unfold wrapSigned
  rcases hb with rfl | rfl
  · norm_num only at h1 h2 ⊢
    omega
  · norm_num only at h1 h2 ⊢
    omega

theorem wrapSigned_neg_wrapSigned (u : Nat) (h : u ≤ 2 ^ 63) :
    wrapSigned 64 (-(wrapSigned 64 (u : Int))) = -(u : Int) := by
  unfold wrapSigned
  norm_num only at h ⊢
  omega

/-- What `ParseInt` makes of the result of `ParseUint` on a run of digits of
value `v`: the signed value when it fits in `bits` bits, the clamped bound and
a range error when it does not. -/
theorem parseIntFinish_digits (s0 s1 : String) (neg : Bool) (bits v : Nat)
    (hb : bits = 32 ∨ bits = 64) :
    parseIntFinish s0 neg bits
        (if v ≤ 2 ^ bits - 1 then (v, none)
         else (2 ^ bits - 1, some (strconv.rangeError "ParseUint" s1))) =
      if neg = true then
        (if (v : Int) ≤ 2 ^ (bits - 1) then (-(v : Int), none)
         else (-(2 ^ (bits - 1) : Int), some (strconv.rangeError "ParseInt" s0)))
      else
        (if (v : Int) < 2 ^ (bits - 1) then ((v : Int), none)
         else (2 ^ (bits - 1) - 1, some (strconv.rangeError "ParseInt" s0))) := by
  have hB0 : 0 < 2 ^ (bits - 1) := Nat.pow_pos (by decide)
  have hB63 : 2 ^ (bits - 1) ≤ 2 ^ 63 :=
    Nat.pow_le_pow_right (by decide) (by rcases hb with rfl | rfl <;> decide)
  have hB2 : 2 ^ bits = 2 * 2 ^ (bits - 1) := by
    rcases hb with rfl | rfl <;> rfl
  have hBi : (2 ^ (bits - 1) : Int) = ((2 ^ (bits - 1) : Nat) : Int) := by push_cast; rfl
  have hB1 : 2 ≤ 2 ^ (bits - 1) := by
    rcases hb with rfl | rfl <;> decide
  unfold parseIntFinish
  rw [hBi, hB2]
  generalize 2 ^ (bits - 1) = B at hB0 hB1 hB63 ⊢
  by_cases hv : v ≤ 2 * B - 1
  · rw [if_pos hv]
    cases neg
    · by_cases h1 : v ≥ B
      · have h1i : ¬ ((v : Int) < (B : Int)) := by omega
        simp [h1, h1i]
      · have h1i : (v : Int) < (B : Int) := by omega
        have hw : wrapSigned 64 (v : Int) = v :=
          wrapSigned_of_range 64 (Or.inr rfl) _ (by norm_num only at hB63 ⊢; omega)
            (by norm_num only at hB63 ⊢; omega)
        simp [h1, h1i, hw]
    · by_cases h1 : v > B
      · have h1i : ¬ ((v : Int) ≤ (B : Int)) := by omega
        simp [h1, h1i]
      · have h1i : (v : Int) ≤ (B : Int) := by omega
        have hw : wrapSigned 64 (-(wrapSigned 64 (v : Int))) = -(v : Int) :=
          wrapSigned_neg_wrapSigned v (by omega)
        simp [h1, h1i, hw]
  · rw [if_neg hv]
    cases neg
    · have h1 : 2 * B - 1 ≥ B := by omega
      have h1i : ¬ ((v : Int) < (B : Int)) := by omega
      simp [strconv.rangeError, h1, h1i]
    · have h1 : 2 * B - 1 > B := by omega
      have h1i : ¬ ((v : Int) ≤ (B : Int)) := by omega
      simp [strconv.rangeError, h1, h1i]

/-- What `ParseInt` makes of a failed `ParseUint`: always an error of
`ParseInt` about the whole input. -/
theorem parseIntFinish_bad (s0 s1 : String) (neg : Bool) (bits : Nat)
    (hb : bits = 32 ∨ bits = 64) (r : Nat × Option GoError)
    (hr : r = (0, some (strconv.syntaxError "ParseUint" s1)) ∨
          r = (2 ^ bits - 1, some (strconv.rangeError "ParseUint" s1))) :
    ∃ v k, parseIntFinish s0 neg bits r = (v, some (GoError.NumError "ParseInt" s0 k)) := by
  rcases hr with rfl | rfl
  · exact ⟨0, ErrKind.ErrSyntax, rfl⟩
  · have h := parseIntFinish_digits s0 s1 neg bits (2 ^ bits) hb
    have hB0 : 0 < 2 ^ (bits - 1) := Nat.pow_pos (by decide)
    have hB2 : 2 ^ bits = 2 * 2 ^ (bits - 1) := by
      rcases hb with rfl | rfl <;> rfl
    have hBi : (2 ^ (bits - 1) : Int) = ((2 ^ (bits - 1) : Nat) : Int) := by push_cast; rfl
    have hBj : ((2 ^ bits : Nat) : Int) = 2 * ((2 ^ (bits - 1) : Nat) : Int) := by
      rw [hB2]; push_cast; rfl
    rw [if_neg (by omega)] at h
    rw [h]
    cases neg
    · rw [if_neg (by simp), if_neg (by rw [hBi, hBj]; omega)]
      exact ⟨_, _, rfl⟩
    · rw [if_pos rfl, if_neg (by rw [hBi, hBj]; omega)]
      exact ⟨_, _, rfl⟩

theorem decimalInt_cons (c : Char) (cs : List Char) :
    decimalInt (c :: cs) =
      if c = '-' then (digitsValue cs).map (fun (v : Nat) => -(v : Int))
      else if c = '+' then (digitsValue cs).map (fun (v : Nat) => (v : Int))
      else (digitsValue (c :: cs)).map (fun (v : Nat) => (v : Int)) := rfl

/-- `ParseInt` on a string that writes the integer `z`: `z` itself when it
fits in the bit size, the nearest bound with a range error when it does not. -/
theorem ParseInt10_of_decimalInt (intSize bitSize : Nat) (l : List Char) (z : Int)
    (hb : (if bitSize = 0 then intSize else bitSize) = 32 ∨
          (if bitSize = 0 then intSize else bitSize) = 64)
    (h : decimalInt l = some z) :
    strconv.ParseInt10 intSize (String.mk l) bitSize =
      if -(2 ^ ((if bitSize = 0 then intSize else bitSize) - 1)) ≤ z ∧
          z < 2 ^ ((if bitSize = 0 then intSize else bitSize) - 1) then (z, none)
      else (if z < 0 then -(2 ^ ((if bitSize = 0 then intSize else bitSize) - 1))
            else 2 ^ ((if bitSize = 0 then intSize else bitSize) - 1) - 1,
            some (strconv.rangeError "ParseInt" (String.mk l))) := by
  have hle : (if bitSize = 0 then intSize else bitSize) ≤ 64 := by
    rcases hb with h | h <;> omega
  have hBi : (2 ^ ((if bitSize = 0 then intSize else bitSize) - 1) : Int) =
      ((2 ^ ((if bitSize = 0 then intSize else bitSize) - 1) : Nat) : Int) := by push_cast; rfl
  have hB0 : 0 < 2 ^ ((if bitSize = 0 then intSize else bitSize) - 1) := Nat.pow_pos (by decide)
  cases l with
  | nil => simp [decimalInt] at h
  | cons c cs =>
    rw [decimalInt_cons] at h
    by_cases hm : c = '-'
    · subst hm
      rw [if_pos rfl] at h
      cases hv : digitsValue cs with
      | none => simp [hv] at h
      | some v =>
        simp only [hv, Option.map_some', Option.some.injEq] at h
        obtain ⟨hne, hd, rfl⟩ := digitsValue_eq_some hv
        rw [ParseInt10_minus, ParseUint10_digits intSize bitSize cs hne hd hle,
          parseIntFinish_digits _ _ _ _ _ hb, if_pos rfl, ← h, hBi]
        generalize 2 ^ ((if bitSize = 0 then intSize else bitSize) - 1) = B at hB0 ⊢
        by_cases h1 : (decVal cs : Int) ≤ (B : Int)
        · rw [if_pos h1, if_pos (by omega)]
        · rw [if_neg h1, if_neg (by omega), if_pos (by omega)]
    · rw [if_neg hm] at h
      by_cases hp : c = '+'
      · subst hp
        rw [if_pos rfl] at h
        cases hv : digitsValue cs with
        | none => simp [hv] at h
        | some v =>
          simp only [hv, Option.map_some', Option.some.injEq] at h
          obtain ⟨hne, hd, rfl⟩ := digitsValue_eq_some hv
          rw [ParseInt10_plus, ParseUint10_digits intSize bitSize cs hne hd hle,
            parseIntFinish_digits _ _ _ _ _ hb, if_neg (by simp), ← h, hBi]
          generalize 2 ^ ((if bitSize = 0 then intSize else bitSize) - 1) = B at hB0 ⊢
          by_cases h1 : (decVal cs : Int) < (B : Int)
          · rw [if_pos h1, if_pos (by omega)]
          · rw [if_neg h1, if_neg (by omega), if_neg (by omega)]
      · rw [if_neg hp] at h
        cases hv : digitsValue (c :: cs) with
        | none => simp [hv] at h
        | some v =>
          simp only [hv, Option.map_some', Option.some.injEq] at h
          obtain ⟨hne, hd, rfl⟩ := digitsValue_eq_some hv
          rw [ParseInt10_unsigned _ _ _ _ hm hp,
            ParseUint10_digits intSize bitSize (c :: cs) hne hd hle,
            parseIntFinish_digits _ _ _ _ _ hb, if_neg (by simp), ← h, hBi]
          generalize 2 ^ ((if bitSize = 0 then intSize else bitSize) - 1) = B at hB0 ⊢
          by_cases h1 : (decVal (c :: cs) : Int) < (B : Int)
          · rw [if_pos h1, if_pos (by omega)]
          · rw [if_neg h1, if_neg (by omega), if_neg (by omega)]

/-- `ParseInt` on a string that writes no integer: an error of `ParseInt`
about the whole input. -/
theorem ParseInt10_of_not_decimalInt (intSize bitSize : Nat) (l : List Char)
    (hb : (if bitSize = 0 then intSize else bitSize) = 32 ∨
          (if bitSize = 0 then intSize else bitSize) = 64)
    (h : decimalInt l = none) :
    ∃ v k, strconv.ParseInt10 intSize (String.mk l) bitSize =
      (v, some (GoError.NumError "ParseInt" (String.mk l) k)) := by
  cases l with
  | nil => exact ⟨0, ErrKind.ErrSyntax, rfl⟩
  | cons c cs =>
    rw [decimalInt_cons] at h
    by_cases hm : c = '-'
    · subst hm
      rw [if_pos rfl] at h
      have hv : digitsValue cs = none := by simpa using h
      rw [ParseInt10_minus]
      exact parseIntFinish_bad _ _ _ _ hb _ (ParseUint10_bad intSize bitSize cs hv)
    · rw [if_neg hm] at h
      by_cases hp : c = '+'
      · subst hp
        rw [if_pos rfl] at h
        have hv : digitsValue cs = none := by simpa using h
        rw [ParseInt10_plus]
        exact parseIntFinish_bad _ _ _ _ hb _ (ParseUint10_bad intSize bitSize cs hv)
      · rw [if_neg hp] at h
        have hv : digitsValue (c :: cs) = none := by simpa using h
        rw [ParseInt10_unsigned _ _ _ _ hm hp]
        exact parseIntFinish_bad _ _ _ _ hb _ (ParseUint10_bad intSize bitSize (c :: cs) hv)

/-! ## `Atoi`, `Replace` and `stringNumberToCents` -/

/-- `Atoi` on a string that writes the integer `z`. -/
theorem Atoi_of_decimalInt (intSize : Nat) (hi : intSize = 32 ∨ intSize = 64)
    (l : List Char) (z : Int) (h : decimalInt l = some z) :
    strconv.Atoi intSize (String.mk l) =
      if -(2 ^ (intSize - 1)) ≤ z ∧ z < 2 ^ (intSize - 1) then (z, none)
      else (if z < 0 then -(2 ^ (intSize - 1)) else 2 ^ (intSize - 1) - 1,
            some (GoError.NumError "Atoi" (String.mk l) ErrKind.ErrRange)) := by
  have hp := ParseInt10_of_decimalInt intSize 0 l z (by simpa using hi) h
  simp only [if_true] at hp
  unfold strconv.Atoi
  rw [hp]
  have hB0 : (0 : Int) < 2 ^ (intSize - 1) := by positivity
  by_cases hr : -(2 ^ (intSize - 1)) ≤ z ∧ z < 2 ^ (intSize - 1)
  · rw [if_pos hr, if_pos hr]
    simp only
    rw [wrapSigned_of_range intSize hi z hr.1 hr.2]
  · rw [if_neg hr, if_neg hr]
    simp only [strconv.rangeError]
    by_cases hz : z < 0
    · rw [if_pos hz, wrapSigned_of_range intSize hi _ (le_refl _) (by omega)]
    · rw [if_neg hz, wrapSigned_of_range intSize hi _ (by omega) (by omega)]

/-- `Atoi` on a string that writes no integer. -/
theorem Atoi_of_not_decimalInt (intSize : Nat) (hi : intSize = 32 ∨ intSize = 64)
    (l : List Char) (h : decimalInt l = none) :
    ∃ v k, strconv.Atoi intSize (String.mk l) =
      (v, some (GoError.NumError "Atoi" (String.mk l) k)) := by
  obtain ⟨v, k, hp⟩ := ParseInt10_of_not_decimalInt intSize 0 l (by simpa using hi) h
  unfold strconv.Atoi
  rw [hp]
  exact ⟨_, _, rfl⟩

theorem replaceGo_zero (old new l : List Char) : strings.replaceGo old new 0 0 l = l := by
  cases l <;> rfl

theorem replaceGo_dot (l : List Char) :
    strings.replaceGo ['.'] [] 1 0 l = l.erase '.' := by
  induction l with
  | nil => rfl
  | cons c cs ih =>
    unfold strings.replaceGo
    by_cases hc : c = '.'
    · subst hc
      simp [replaceGo_zero]
    · have hc2 : ¬ '.' = c := fun h => hc h.symm
      simp [hc, hc2, ih, List.erase_cons]

/-- `strings.Replace(s, ".", "", 1)` removes the first `.` of `s`. -/
theorem Replace_dot (l : List Char) :
    strings.Replace (String.mk l) "." "" 1 = String.mk (l.erase '.') := by
  unfold strings.Replace
  rw [if_neg (by decide)]
  simp [replaceGo_dot]

theorem stringNumberToCents_eq (intSize : Nat) (l : List Char) :
    stringNumberToCents intSize (String.mk l) = strconv.Atoi intSize (String.mk (l.erase '.')) := by
  unfold stringNumberToCents
  rw [Replace_dot]

theorem isDigit_ne_dot {c : Char} (h : isDigit c = true) : c ≠ '.' := by
  rintro rfl
  revert h
  decide

theorem isDigit_ne_minus {c : Char} (h : isDigit c = true) : c ≠ '-' := by
  rintro rfl
  revert h
  decide

theorem isDigit_ne_plus {c : Char} (h : isDigit c = true) : c ≠ '+' := by
  rintro rfl
  revert h
  decide

theorem decimalInt_of_digits {ds : List Char} (hne : ds ≠ [])
    (hd : ∀ c ∈ ds, isDigit c = true) : decimalInt ds = some ((decVal ds : Nat) : Int) := by
  cases ds with
  | nil => exact absurd rfl hne
  | cons c cs =>
    have hc := hd c (List.mem_cons_self c cs)
    rw [decimalInt_cons, if_neg (isDigit_ne_minus hc), if_neg (isDigit_ne_plus hc),
      digitsValue_of_digits hne hd]
    rfl

theorem decVal_append_two (w : List Char) (a b : Char) :
    decVal (w ++ [a, b]) = 100 * decVal w + decVal [a, b] := by
  unfold decVal
  rw [decValFrom_append]
  simp only [decValFrom, List.foldl_cons, List.foldl_nil]
  omega

/-- The conversion on digits, a point and two digits, for a value that fits
in `int`. -/
theorem stringNumberToCents_digits_point_two (intSize : Nat) (hi : intSize = 32 ∨ intSize = 64)
    (w : List Char) (a b : Char) (hwd : ∀ c ∈ w, isDigit c = true)
    (ha : isDigit a = true) (hb : isDigit b = true)
    (hfit : 100 * decVal w + decVal [a, b] < 2 ^ (intSize - 1)) :
    stringNumberToCents intSize (String.mk (w ++ ['.', a, b])) =
      (((100 * decVal w + decVal [a, b] : Nat) : Int), none) := by
  have hnot : '.' ∉ w := fun hmem => isDigit_ne_dot (hwd _ hmem) rfl
  have herase : (w ++ ['.', a, b]).erase '.' = w ++ [a, b] := by
    rw [List.erase_append_right _ hnot]
    simp
  have hd : ∀ c ∈ w ++ [a, b], isDigit c = true := by
    intro c hc
    rcases List.mem_append.1 hc with h | h
    · exact hwd c h
    · simp at h
      rcases h with rfl | rfl <;> assumption
  rw [stringNumberToCents_eq, herase,
    Atoi_of_decimalInt intSize hi _ _ (decimalInt_of_digits (by simp) hd), decVal_append_two]
  have hfit2 : ((100 * decVal w + decVal [a, b] : Nat) : Int) < 2 ^ (intSize - 1) := by
    exact_mod_cast hfit
  rw [if_pos ⟨by omega, hfit2⟩]

theorem decimalInt_some_mem {l : List Char} {z : Int} (h : decimalInt l = some z) :
    ∀ c ∈ l, isDigit c = true ∨ c = '-' ∨ c = '+' := by
  cases l with
  | nil => simp [decimalInt] at h
  | cons c cs =>
    rw [decimalInt_cons] at h
    by_cases hm : c = '-'
    · rw [if_pos hm] at h
      cases hv : digitsValue cs with
      | none => simp [hv] at h
      | some v =>
        intro x hx
        rcases List.mem_cons.1 hx with rfl | hx
        · exact Or.inr (Or.inl hm)
        · exact Or.inl ((digitsValue_eq_some hv).2.1 x hx)
    · rw [if_neg hm] at h
      by_cases hp : c = '+'
      · rw [if_pos hp] at h
        cases hv : digitsValue cs with
        | none => simp [hv] at h
        | some v =>
          intro x hx
          rcases List.mem_cons.1 hx with rfl | hx
          · exact Or.inr (Or.inr hp)
          · exact Or.inl ((digitsValue_eq_some hv).2.1 x hx)
      · rw [if_neg hp] at h
        cases hv : digitsValue (c :: cs) with
        | none => simp [hv] at h
        | some v =>
          intro x hx
          exact Or.inl ((digitsValue_eq_some hv).2.1 x hx)

theorem decimalInt_none_of_dot {l : List Char} (h : '.' ∈ l) : decimalInt l = none := by
  cases hz : decimalInt l with
  | none => rfl
  | some z =>
    rcases decimalInt_some_mem hz '.' h with h1 | h1 | h1
    · exact absurd h1 (by decide)
    · exact absurd h1 (by decide)
    · exact absurd h1 (by decide)

/-- The conversion succeeds exactly on the strings that, once their first
point is removed, write an integer that fits in `int`; it then returns that
integer. -/
theorem stringNumberToCents_cases (intSize : Nat) (hi : intSize = 32 ∨ intSize = 64)
    (l : List Char) :
    (∀ z, decimalInt (l.erase '.') = some z → -(2 ^ (intSize - 1)) ≤ z → z < 2 ^ (intSize - 1) →
        stringNumberToCents intSize (String.mk l) = (z, none)) ∧
    ((¬ ∃ z, decimalInt (l.erase '.') = some z ∧ -(2 ^ (intSize - 1)) ≤ z ∧
          z < 2 ^ (intSize - 1)) →
        ∃ v k, stringNumberToCents intSize (String.mk l) =
          (v, some (GoError.NumError "Atoi" (String.mk (l.erase '.')) k))) := by
  rw [stringNumberToCents_eq]
  constructor
  · intro z hz h1 h2
    rw [Atoi_of_decimalInt intSize hi _ z hz, if_pos ⟨h1, h2⟩]
  · intro hno
    cases hz : decimalInt (l.erase '.') with
    | none => exact Atoi_of_not_decimalInt intSize hi _ hz
    | some z =>
      rw [Atoi_of_decimalInt intSize hi _ z hz, if_neg (fun hr => hno ⟨z, hz, hr.1, hr.2⟩)]
      exact ⟨_, _, rfl⟩

theorem twoDecimalCheck_of_TwoDecimal {s : String} (h : TwoDecimal s) :
    twoDecimalCheck s = true := by
  obtain ⟨w, a, b, hw, hwd, ha, hb, rfl⟩ := h
  have hrev : (w ++ ['.', a, b]).reverse = b :: a :: '.' :: w.reverse := by simp
  unfold twoDecimalCheck
  simp only [hrev]
  have hw2 : w.reverse.isEmpty = false := by
    cases w with
    | nil => exact absurd rfl hw
    | cons c cs => simp
  have hall : w.reverse.all isDigit = true := by
    simpa using hwd
  simp [ha, hb, hw2, hall]

/-! ## Digit runs and their values -/

theorem decVal_concat (xs : List Char) (c : Char) :
    decVal (xs ++ [c]) = decVal xs * 10 + (c.toNat - 48) := by
  unfold decVal
  rw [decValFrom_append]
  rfl

theorem decVal_reverse (L : List Char) :
    decVal L.reverse = Nat.ofDigits 10 (L.map (fun c => c.toNat - 48)) := by
  induction L with
  | nil => rfl
  | cons c L ih =>
    rw [List.reverse_cons, decVal_concat, ih, List.map_cons, Nat.ofDigits_cons]
    omega

theorem toNat_sub_inj {c d : Char} (hc : isDigit c = true) (hd : isDigit d = true)
    (h : c.toNat - 48 = d.toNat - 48) : c = d := by
  have h1 := (isDigit_iff c).1 hc
  have h2 := (isDigit_iff d).1 hd
  have h3 : c.toNat = d.toNat := by omega
  rw [← Char.ofNat_toNat c, ← Char.ofNat_toNat d, h3]

theorem map_digit_inj : ∀ (w w' : List Char), (∀ c ∈ w, isDigit c = true) →
    (∀ c ∈ w', isDigit c = true) →
    w.map (fun c => c.toNat - 48) = w'.map (fun c => c.toNat - 48) → w = w' := by
  intro w
  induction w with
  | nil =>
    intro w' _ _ h
    cases w' with
    | nil => rfl
    | cons c cs => simp at h
  | cons c cs ih =>
    intro w' hd hd' h
    cases w' with
    | nil => simp at h
    | cons c' cs' =>
      simp only [List.map_cons, List.cons.injEq] at h
      have hc : c = c' :=
        toNat_sub_inj (hd c (List.mem_cons_self _ _)) (hd' c' (List.mem_cons_self _ _)) h.1
      have hcs : cs = cs' :=
        ih cs' (fun x hx => hd x (List.mem_cons_of_mem _ hx))
          (fun x hx => hd' x (List.mem_cons_of_mem _ hx)) h.2
      rw [hc, hcs]

/-- The base-10 digits of the value of a digit run that does not start with
`0` are the digits of the run, least significant first. -/
theorem digits_decVal (w : List Char) (hd : ∀ c ∈ w, isDigit c = true)
    (hh : w.head? ≠ some '0') :
    Nat.digits 10 (decVal w) = w.reverse.map (fun c => c.toNat - 48) := by
  have hval : decVal w = Nat.ofDigits 10 (w.reverse.map (fun c => c.toNat - 48)) := by
    rw [← decVal_reverse, List.reverse_reverse]
  rw [hval]
  apply Nat.digits_ofDigits 10 (by decide)
  · intro l hl
    obtain ⟨c, hc, rfl⟩ := List.mem_map.1 hl
    have := (isDigit_iff c).1 (hd c (List.mem_reverse.1 hc))
    omega
  · intro hne
    cases w with
    | nil => simp at hne
    | cons c cs =>
      have hc0 : c ≠ '0' := by
        intro h0
        apply hh
        rw [h0]
        rfl
      have hcd := (isDigit_iff c).1 (hd c (List.mem_cons_self _ _))
      have hne48 : c.toNat ≠ 48 := by
        intro h48
        apply hc0
        rw [← Char.ofNat_toNat c, h48]
      simp only [List.reverse_cons, List.map_append, List.map_cons, List.map_nil,
        List.getLast_append_singleton] 
      omega

/-- Two digit runs with no superfluous leading zero and the same value are
the same run. -/
theorem decVal_inj (w w' : List Char) (hne : w ≠ []) (hne' : w' ≠ [])
    (hd : ∀ c ∈ w, isDigit c = true) (hd' : ∀ c ∈ w', isDigit c = true)
    (hn : NoLeadingZero w) (hn' : NoLeadingZero w') (h : decVal w = decVal w') : w = w' := by
  have hzero : ∀ u : List Char, u ≠ [] → (∀ c ∈ u, isDigit c = true) →
      u.head? ≠ some '0' → decVal u ≠ 0 := by
    intro u hu hud huh h0
    have hdig := digits_decVal u hud huh
    rw [h0, Nat.digits_zero] at hdig
    apply hu
    have hlen := congrArg List.length hdig
    simp at hlen
    exact List.eq_nil_of_length_eq_zero hlen.symm
  rcases hn with rfl | hh
  · rcases hn' with rfl | hh'
    · rfl
    · exact absurd h.symm (hzero w' hne' hd' hh')
  · rcases hn' with rfl | hh'
    · exact absurd h (hzero w hne hd hh)
    · have h1 := digits_decVal w hd hh
      have h2 := digits_decVal w' hd' hh'
      rw [h, h2] at h1
      have h3 : w'.map (fun c => c.toNat - 48) = w.map (fun c => c.toNat - 48) := by
        rw [List.map_reverse, List.map_reverse] at h1
        exact List.reverse_injective h1
      exact (map_digit_inj w' w hd' hd h3).symm

theorem stringNumberToCents_digits_point_two_value (intSize : Nat)
    (hi : intSize = 32 ∨ intSize = 64) (w : List Char) (a b : Char)
    (hwd : ∀ c ∈ w, isDigit c = true) (ha : isDigit a = true) (hb : isDigit b = true)
    (n : Int) (h : stringNumberToCents intSize (String.mk (w ++ ['.', a, b])) = (n, none)) :
    n = ((100 * decVal w + decVal [a, b] : Nat) : Int) := by
  by_cases hfit : 100 * decVal w + decVal [a, b] < 2 ^ (intSize - 1)
  · rw [stringNumberToCents_digits_point_two intSize hi w a b hwd ha hb hfit] at h
    exact (congrArg Prod.fst h).symm
  · exfalso
    have hnot : ¬ ∃ z, decimalInt ((w ++ ['.', a, b]).erase '.') = some z ∧
        -(2 ^ (intSize - 1)) ≤ z ∧ z < 2 ^ (intSize - 1) := by
      rintro ⟨z, hz, -, h2⟩
      have hnot : '.' ∉ w := fun hmem => isDigit_ne_dot (hwd _ hmem) rfl
      have herase : (w ++ ['.', a, b]).erase '.' = w ++ [a, b] := by
        rw [List.erase_append_right _ hnot]
        simp
      have hd : ∀ c ∈ w ++ [a, b], isDigit c = true := by
        intro c hc
        rcases List.mem_append.1 hc with h | h
        · exact hwd c h
        · simp at h
          rcases h with rfl | rfl <;> assumption
      rw [herase, decimalInt_of_digits (by simp) hd, decVal_append_two] at hz
      simp only [Option.some.injEq] at hz
      apply hfit
      rw [← hz] at h2
      exact_mod_cast h2
    obtain ⟨v, k, hv⟩ := (stringNumberToCents_cases intSize hi _).2 hnot
    rw [hv] at h
    simp at h

/-! ## The status of a price-order response -/

/-- `Int64` on a number literal that writes the integer `z`. -/
theorem Int64_of_decimalInt (intSize : Nat) (s : String) (z : Int)
    (h : decimalInt s.data = some z) :
    Int64 intSize s =
      if -(2 ^ 63) ≤ z ∧ z < 2 ^ 63 then (z, none)
      else (if z < 0 then -(2 ^ 63) else 2 ^ 63 - 1,
            some (strconv.rangeError "ParseInt" s)) :=
  ParseInt10_of_decimalInt intSize 64 s.data z (Or.inr rfl) h

/-- `Int64` on a number literal that writes no integer. -/
theorem Int64_of_not_decimalInt (intSize : Nat) (s : String) (h : decimalInt s.data = none) :
    ∃ v k, Int64 intSize s = (v, some (GoError.NumError "ParseInt" s k)) :=
  ParseInt10_of_not_decimalInt intSize 64 s.data (Or.inr rfl) h

/-- `Int64` fails on every literal that does not write an integer of the
`int64` range. -/
theorem Int64_fails (intSize : Nat) (s : String)
    (h : ¬ ∃ z, decimalInt s.data = some z ∧ -(2 ^ 63) ≤ z ∧ z < 2 ^ 63) :
    ∃ v e, Int64 intSize s = (v, some e) := by
  cases hz : decimalInt s.data with
  | none =>
    obtain ⟨v, k, hv⟩ := Int64_of_not_decimalInt intSize s hz
    exact ⟨v, _, hv⟩
  | some z =>
    rw [Int64_of_decimalInt intSize s z hz, if_neg (fun hr => h ⟨z, hz, hr.1, hr.2⟩)]
    exact ⟨_, _, rfl⟩

/-- `PriceOrder` returns an error and no price whenever `Int64` fails on the
status. -/
theorem PriceOrder_of_status_error (intSize : Nat) (resp : PriceOrderResponse)
    (v : Int) (e : GoError) (h : Int64 intSize resp.Status = (v, some e)) :
    PriceOrder intSize none resp = (none, some e) := by
  unfold PriceOrder
  simp only [h]

/-- `PriceOrder` after a status that `Int64` reads as `z`. -/
theorem PriceOrder_of_status (intSize : Nat) (resp : PriceOrderResponse) (z : Int)
    (h : Int64 intSize resp.Status = (z, none)) :
    PriceOrder intSize none resp =
      if z = -1 then
        (none, some (GoError.errorString "dominos does not like this order for some reason"))
      else
        match stringNumberToCents intSize resp.Order.AmountsBreakdown.DeliveryFee with
        | (_, some e) => (none, some e)
        | (delivery, none) =>
          match stringNumberToCents intSize resp.Order.AmountsBreakdown.Tax with
          | (_, some e) => (none, some e)
          | (tax, none) =>
            match stringNumberToCents intSize resp.Order.AmountsBreakdown.Customer with
            | (_, some e) => (none, some e)
            | (customer, none) =>
              (some { ID := resp.Order.OrderID,
                      DeliveryCents := delivery,
                      TaxCents := tax,
                      CustomerCents := customer }, none) := by
  unfold PriceOrder
  simp only [h]

/-! ## The loops of the three operations -/

theorem foldl_append_singleton {α β : Type} (g : α → β) (l : List α) :
    ∀ init : List β, l.foldl (fun acc x => acc ++ [g x]) init = init ++ l.map g := by
  induction l with
  | nil => intro init; simp
  | cons x xs ih => intro init; simp [ih]

theorem foldl_filter_append {α β : Type} (q : α → Bool) (g : α → β) (l : List α) :
    ∀ init : List β,
      l.foldl (fun acc x => if q x = true then acc ++ [g x] else acc) init =
        init ++ (l.filter q).map g := by
  induction l with
  | nil => intro init; simp
  | cons x xs ih =>
    intro init
    cases hq : q x <;> simp [ih, hq]

/-- The loop of `GetMenuItems` when every remaining price converts. -/
theorem menuItemsLoop_ok (intSize : Nat) :
    ∀ (vs : List (String × Variant)) (items : List MenuItem),
      (∀ kv ∈ vs, (stringNumberToCents intSize kv.2.Price).2 = none) →
      menuItemsLoop intSize vs items =
        (some (items ++ vs.map (fun kv =>
          { Code := kv.2.Code, Name := kv.2.Name,
            PriceCents := (stringNumberToCents intSize kv.2.Price).1 })), none) := by
  intro vs
  induction vs with
  | nil => intro items _; simp [menuItemsLoop]
  | cons kv rest ih =>
    intro items h
    obtain ⟨key, v⟩ := kv
    have hv : (stringNumberToCents intSize v.Price).2 = none := h (key, v) (List.mem_cons_self _ _)
    have hrest :=
      ih (items ++ [MenuItem.mk v.Code v.Name (stringNumberToCents intSize v.Price).1])
        (fun x hx => h x (List.mem_cons_of_mem _ hx))
    rcases hp : stringNumberToCents intSize v.Price with ⟨price, _ | e⟩
    · rw [hp] at hrest
      simp only [menuItemsLoop, hp]
      rw [hrest]
      simp [hp]
    · rw [hp] at hv
      simp at hv

/-- The loop of `GetMenuItems` when some remaining price fails to convert:
the error of such a price, and no items. -/
theorem menuItemsLoop_error (intSize : Nat) :
    ∀ (vs : List (String × Variant)) (items : List MenuItem),
      (∃ kv ∈ vs, (stringNumberToCents intSize kv.2.Price).2 ≠ none) →
      ∃ e, menuItemsLoop intSize vs items = (none, some e) ∧
        ∃ kv ∈ vs, (stringNumberToCents intSize kv.2.Price).2 = some e := by
  intro vs
  induction vs with
  | nil => intro items h; simp at h
  | cons kv rest ih =>
    intro items h
    obtain ⟨key, v⟩ := kv
    rcases hp : stringNumberToCents intSize v.Price with ⟨price, _ | e⟩
    · have hrest : ∃ kv ∈ rest, (stringNumberToCents intSize kv.2.Price).2 ≠ none := by
        obtain ⟨x, hx, hxe⟩ := h
        rcases List.mem_cons.1 hx with rfl | hx
        · rw [hp] at hxe
          simp at hxe
        · exact ⟨x, hx, hxe⟩
      obtain ⟨e, he, x, hx, hxe⟩ := ih (items ++ [MenuItem.mk v.Code v.Name price]) hrest
      refine ⟨e, ?_, x, List.mem_cons_of_mem _ hx, hxe⟩
      simp only [menuItemsLoop, hp]
      exact he
    · refine ⟨e, ?_, (key, v), List.mem_cons_self _ _, ?_⟩
      · simp only [menuItemsLoop, hp]
      · rw [hp]

/-- The `reqProducts` loop builds one entry per visited pair, in order. -/
theorem reqProducts_eq_map (products : List (String × Int)) :
    reqProducts products =
      products.map (fun p =>
        [("Code", Value.str p.1), ("ID", Value.int 1), ("isNew", Value.bool true),
         ("Qty", Value.int p.2), ("AutoRemove", Value.bool false)]) := by
  unfold reqProducts
  rw [foldl_append_singleton]
  simp

theorem readProduct_entry (code : String) (qty : Int) :
    readProduct [("Code", Value.str code), ("ID", Value.int 1), ("isNew", Value.bool true),
      ("Qty", Value.int qty), ("AutoRemove", Value.bool false)] = some (code, qty) := by
  have h1 : List.lookup "Code" [("Code", Value.str code), ("ID", Value.int 1),
      ("isNew", Value.bool true), ("Qty", Value.int qty), ("AutoRemove", Value.bool false)] =
      some (Value.str code) := by
    simp [List.lookup]
  have h2 : List.lookup "Qty" [("Code", Value.str code), ("ID", Value.int 1),
      ("isNew", Value.bool true), ("Qty", Value.int qty), ("AutoRemove", Value.bool false)] =
      some (Value.int qty) := by
    have e1 : ("Qty" == "Code") = false := by decide
    have e2 : ("Qty" == "ID") = false := by decide
    have e3 : ("Qty" == "isNew") = false := by decide
    have e4 : ("Qty" == "Qty") = true := by decide
    simp [List.lookup, e1, e2, e3, e4]
  unfold readProduct
  rw [h1, h2]

theorem filterMap_readProduct (products : List (String × Int)) :
    (reqProducts products).filterMap readProduct = products := by
  rw [reqProducts_eq_map, List.filterMap_map]
  induction products with
  | nil => rfl
  | cons p ps ih =>
    rw [List.filterMap_cons]
    simp only [Function.comp_apply, readProduct_entry]
    rw [ih]

/-! ## The claims -/

/-- C1: for every string made of one or more decimal digits, a point and
exactly two decimal digits, whose value fits in `int`, `stringNumberToCents`
succeeds and returns `100 * w + f`, with `w` the value of the digits before the
point and `f` the value of the two digits after it; `"2.99"` gives 299 and
`"12.00"` gives 1200. -/
theorem stringNumberToCents_two_fraction_digits (intSize : Nat)
    (hi : intSize = 32 ∨ intSize = 64) :
    (∀ (w : List Char) (a b : Char), w ≠ [] → (∀ c ∈ w, isDigit c = true) →
        isDigit a = true → isDigit b = true →
        100 * decVal w + decVal [a, b] < 2 ^ (intSize - 1) →
        stringNumberToCents intSize (String.mk (w ++ ['.', a, b])) =
          (((100 * decVal w + decVal [a, b] : Nat) : Int), none)) ∧
    stringNumberToCents intSize "2.99" = (299, none) ∧
    stringNumberToCents intSize "12.00" = (1200, none) := by
  refine ⟨?_, ?_, ?_⟩
  · intro w a b _ hwd ha hb hfit
    exact stringNumberToCents_digits_point_two intSize hi w a b hwd ha hb hfit
  · rcases hi with rfl | rfl <;> decide
  · rcases hi with rfl | rfl <;> decide

theorem stringNumberToCents_two_fraction_digits_witness :
    (64 = 32 ∨ 64 = 64) ∧ ['7', '4'] ≠ [] ∧ (∀ c ∈ ['7', '4'], isDigit c = true) ∧
      isDigit '0' = true ∧ isDigit '5' = true ∧
      100 * decVal ['7', '4'] + decVal ['0', '5'] < 2 ^ (64 - 1) ∧
      stringNumberToCents 64 "74.05" = (7405, none) :=
  ⟨by decide, by decide, by decide, by decide, by decide, by decide,
    (stringNumberToCents_two_fraction_digits 64 (by decide)).1 ['7', '4'] '0' '5'
      (by decide) (by decide) (by decide) (by decide) (by decide)⟩

/-- C6 (counterexample): strings that are not digits, a point and two digits
are converted all the same: `"299"` (no point), `"1.1"` (one fractional digit)
and `"1.234"` (three fractional digits) succeed. -/
theorem stringNumberToCents_accepts_other_shapes :
    (¬ TwoDecimal "299" ∧ stringNumberToCents 64 "299" = (299, none)) ∧
    (¬ TwoDecimal "1.1" ∧ stringNumberToCents 64 "1.1" = (11, none)) ∧
    (¬ TwoDecimal "1.234" ∧ stringNumberToCents 64 "1.234" = (1234, none)) := by
  refine ⟨⟨fun h => ?_, by decide⟩, ⟨fun h => ?_, by decide⟩, ⟨fun h => ?_, by decide⟩⟩
  · exact absurd (twoDecimalCheck_of_TwoDecimal h) (by decide)
  · exact absurd (twoDecimalCheck_of_TwoDecimal h) (by decide)
  · exact absurd (twoDecimalCheck_of_TwoDecimal h) (by decide)

/-- C6 (amended): `stringNumberToCents` fails exactly on the strings that,
once their first point is removed, are not an optional sign followed by one or
more decimal digits whose value fits in `int`. -/
theorem stringNumberToCents_fails_iff (intSize : Nat) (hi : intSize = 32 ∨ intSize = 64)
    (s : String) :
    (stringNumberToCents intSize s).2 ≠ none ↔
      ¬ ∃ z, decimalInt (s.data.erase '.') = some z ∧ -(2 ^ (intSize - 1)) ≤ z ∧
          z < 2 ^ (intSize - 1) := by
  have hc := stringNumberToCents_cases intSize hi s.data
  constructor
  · rintro hfail ⟨z, hz, h1, h2⟩
    apply hfail
    have := hc.1 z hz h1 h2
    show (stringNumberToCents intSize (String.mk s.data)).2 = none
    rw [this]
  · intro hno
    obtain ⟨v, k, hv⟩ := hc.2 hno
    show (stringNumberToCents intSize (String.mk s.data)).2 ≠ none
    rw [hv]
    simp

theorem stringNumberToCents_fails_iff_witness :
    (64 = 32 ∨ 64 = 64) ∧ (stringNumberToCents 64 "1.2.3").2 ≠ none :=
  ⟨by decide, (stringNumberToCents_fails_iff 64 (by decide) "1.2.3").2 (by
    rintro ⟨z, hz, -⟩
    have hn : decimalInt ("1.2.3".data.erase '.') = none := by decide
    rw [hn] at hz
    cases hz)⟩

/-- C9: `stringNumberToCents` does not depend on where the point sits: with a
single point inserted anywhere in a point-free string `d` it gives the outcome
of `Atoi` on `d`, as it does on `d` itself; `"2.99"`, `"29.9"` and `"299"` all
give 299 and `"1.1"` gives 11.  Only the first point is removed: a string with
two or more points always fails. -/
theorem stringNumberToCents_point_position (intSize : Nat)
    (hi : intSize = 32 ∨ intSize = 64) :
    (∀ d₁ d₂ : List Char, '.' ∉ d₁ ++ d₂ →
        stringNumberToCents intSize (String.mk (d₁ ++ '.' :: d₂)) =
          strconv.Atoi intSize (String.mk (d₁ ++ d₂))) ∧
    (∀ d : List Char, '.' ∉ d →
        stringNumberToCents intSize (String.mk d) = strconv.Atoi intSize (String.mk d)) ∧
    stringNumberToCents intSize "2.99" = (299, none) ∧
    stringNumberToCents intSize "29.9" = (299, none) ∧
    stringNumberToCents intSize "299" = (299, none) ∧
    stringNumberToCents intSize "1.1" = (11, none) ∧
    (∀ s : String, 2 ≤ s.data.count '.' → (stringNumberToCents intSize s).2 ≠ none) := by
  refine ⟨?_, ?_, ?_, ?_, ?_, ?_, ?_⟩
  · intro d₁ d₂ hd
    have h1 : '.' ∉ d₁ := fun h => hd (List.mem_append_left _ h)
    rw [stringNumberToCents_eq, List.erase_append_right _ h1]
    simp
  · intro d hd
    rw [stringNumberToCents_eq, List.erase_of_not_mem hd]
  · rcases hi with rfl | rfl <;> decide
  · rcases hi with rfl | rfl <;> decide
  · rcases hi with rfl | rfl <;> decide
  · rcases hi with rfl | rfl <;> decide
  · intro s hs
    have hcount : 0 < (s.data.erase '.').count '.' := by
      rw [List.count_erase_self]
      omega
    have hmem : '.' ∈ s.data.erase '.' := List.count_pos_iff.1 hcount
    obtain ⟨v, k, hv⟩ := Atoi_of_not_decimalInt intSize hi _ (decimalInt_none_of_dot hmem)
    show (stringNumberToCents intSize (String.mk s.data)).2 ≠ none
    rw [stringNumberToCents_eq, hv]
    simp

theorem stringNumberToCents_point_position_witness :
    (64 = 32 ∨ 64 = 64) ∧ '.' ∉ ['1', '2'] ++ ['3', '4'] ∧
      stringNumberToCents 64 "12.34" = strconv.Atoi 64 "1234" ∧
      2 ≤ "1.2.3".data.count '.' ∧ (stringNumberToCents 64 "1.2.3").2 ≠ none :=
  ⟨by decide, by decide,
    (stringNumberToCents_point_position 64 (by decide)).1 ['1', '2'] ['3', '4'] (by decide),
    by decide,
    (stringNumberToCents_point_position 64 (by decide)).2.2.2.2.2.2 "1.2.3" (by decide)⟩

/-- C8 (counterexample): `"1.00"` and `"01.00"` are both digits, a point and
two digits, both convert to 100, and they are different strings. -/
theorem stringNumberToCents_not_injective :
    TwoDecimal "1.00" ∧ TwoDecimal "01.00" ∧
    stringNumberToCents 64 "1.00" = (100, none) ∧
    stringNumberToCents 64 "01.00" = (100, none) ∧ "1.00" ≠ "01.00" :=
  ⟨⟨['1'], '0', '0', by decide, by decide, by decide, by decide, rfl⟩,
    ⟨['0', '1'], '0', '0', by decide, by decide, by decide, by decide, rfl⟩,
    by decide, by decide, by decide⟩

/-- C8 (amended): `stringNumberToCents` is injective on the strings made of
one or more decimal digits with no superfluous leading zero, a point and
exactly two decimal digits: two such strings that both convert successfully to
the same integer are equal. -/
theorem stringNumberToCents_injective (intSize : Nat) (hi : intSize = 32 ∨ intSize = 64)
    (w w' : List Char) (a b a' b' : Char) (hw : w ≠ []) (hw' : w' ≠ [])
    (hwd : ∀ c ∈ w, isDigit c = true) (hwd' : ∀ c ∈ w', isDigit c = true)
    (ha : isDigit a = true) (hb : isDigit b = true)
    (ha' : isDigit a' = true) (hb' : isDigit b' = true)
    (hn : NoLeadingZero w) (hn' : NoLeadingZero w') (n : Int)
    (hs : stringNumberToCents intSize (String.mk (w ++ ['.', a, b])) = (n, none))
    (ht : stringNumberToCents intSize (String.mk (w' ++ ['.', a', b'])) = (n, none)) :
    String.mk (w ++ ['.', a, b]) = String.mk (w' ++ ['.', a', b']) := by
  have h1 := stringNumberToCents_digits_point_two_value intSize hi w a b hwd ha hb n hs
  have h2 := stringNumberToCents_digits_point_two_value intSize hi w' a' b' hwd' ha' hb' n ht
  have heq : 100 * decVal w + decVal [a, b] = 100 * decVal w' + decVal [a', b'] := by
    rw [h1] at h2
    exact_mod_cast h2
  have hab : decVal [a, b] = (a.toNat - 48) * 10 + (b.toNat - 48) := by
    simp [decVal, decValFrom]
  have hab' : decVal [a', b'] = (a'.toNat - 48) * 10 + (b'.toNat - 48) := by
    simp [decVal, decValFrom]
  have da := (isDigit_iff a).1 ha
  have db := (isDigit_iff b).1 hb
  have da' := (isDigit_iff a').1 ha'
  have db' := (isDigit_iff b').1 hb'
  have hwv : decVal w = decVal w' := by omega
  have hae : a = a' := toNat_sub_inj ha ha' (by omega)
  have hbe : b = b' := toNat_sub_inj hb hb' (by omega)
  rw [decVal_inj w w' hw hw' hwd hwd' hn hn' hwv, hae, hbe]

theorem stringNumberToCents_injective_witness :
    (64 = 32 ∨ 64 = 64) ∧ NoLeadingZero ['1', '2'] ∧
      stringNumberToCents 64 "12.34" = (1234, none) ∧
      String.mk (['1', '2'] ++ ['.', '3', '4']) = String.mk (['1', '2'] ++ ['.', '3', '4']) :=
  ⟨by decide, Or.inr (by decide), by decide,
    stringNumberToCents_injective 64 (by decide) ['1', '2'] ['1', '2'] '3' '4' '3' '4'
      (by decide) (by decide) (by decide) (by decide) (by decide) (by decide) (by decide)
      (by decide) (Or.inr (by decide)) (Or.inr (by decide)) 1234 (by decide) (by decide)⟩

/-- C2: for every decoded price-order response whose status is -1,
`PriceOrder` returns an error and no `OrderPrice` (a nil result), whatever the
order id, delivery fee, tax and customer total are. -/
theorem PriceOrder_status_minus_one (intSize : Nat) (resp : PriceOrderResponse)
    (h : decimalInt resp.Status.data = some (-1)) :
    PriceOrder intSize none resp =
      (none, some (GoError.errorString "dominos does not like this order for some reason")) := by
  have hs := Int64_of_decimalInt intSize resp.Status (-1) h
  rw [if_pos (by constructor <;> norm_num)] at hs
  rw [PriceOrder_of_status intSize resp (-1) hs, if_pos rfl]

theorem PriceOrder_status_minus_one_witness :
    decimalInt "-1".data = some (-1) ∧
      PriceOrder 64 none
          { Status := "-1",
            Order := { OrderID := "A1",
                       AmountsBreakdown :=
                         { DeliveryFee := "free", Tax := "1.08", Customer := "" } } } =
        (none, some (GoError.errorString "dominos does not like this order for some reason")) :=
  ⟨by decide, PriceOrder_status_minus_one 64 _ (by decide)⟩

/-- C3: for every decoded store-locator response, `GetDeliveryStores` returns
without error the records whose `IsDeliveryStore` flag is true, in response
order, each mapped to `Store{ID = StoreID, DeliveryMinutes = delivery minimum
wait}`; when no record has the flag set the result is an empty list and not an
error. -/
theorem GetDeliveryStores_filter_map (resp : StoreLocatorResponse) :
    GetDeliveryStores none resp =
      (some ((resp.Stores.filter (fun s => s.IsDeliveryStore)).map (fun s =>
        { ID := s.StoreID,
          DeliveryMinutes := s.ServiceMethodEstimatedWaitMinutes.Delivery.Min })), none) ∧
    ((∀ s ∈ resp.Stores, s.IsDeliveryStore = false) →
      GetDeliveryStores none resp = (some [], none)) := by
  have hmain : GetDeliveryStores none resp =
      (some ((resp.Stores.filter (fun s => s.IsDeliveryStore)).map (fun s =>
        { ID := s.StoreID,
          DeliveryMinutes := s.ServiceMethodEstimatedWaitMinutes.Delivery.Min })), none) := by
    unfold GetDeliveryStores
    simp only
    rw [foldl_filter_append (fun s : StoreRecord => s.IsDeliveryStore)
      (fun s : StoreRecord => Store.mk s.StoreID s.ServiceMethodEstimatedWaitMinutes.Delivery.Min)]
    simp
  refine ⟨hmain, ?_⟩
  intro hnone
  rw [hmain]
  have hf : resp.Stores.filter (fun s => s.IsDeliveryStore) = [] := by
    rw [List.filter_eq_nil_iff]
    intro s hs
    simp [hnone s hs]
  rw [hf]
  rfl

theorem GetDeliveryStores_filter_map_witness :
    (∀ s ∈ [({ StoreID := "7", IsDeliveryStore := false,
               ServiceMethodEstimatedWaitMinutes := { Delivery := { Min := 30 } } } :
              StoreRecord)],
        s.IsDeliveryStore = false) ∧
      GetDeliveryStores none
          { Stores := [{ StoreID := "7", IsDeliveryStore := false,
                         ServiceMethodEstimatedWaitMinutes := { Delivery := { Min := 30 } } }] } =
        (some [], none) :=
  ⟨by decide, (GetDeliveryStores_filter_map _).2 (by decide)⟩

/-- C5: for every decoded menu response, `GetMenuItems` returns exactly one
`MenuItem` per variant, with the variant's `Code` and `Name` and `PriceCents`
the cents conversion of its `Price` (so as many items as variants), when every
price converts; when at least one price fails to convert it returns an error,
the error of such a price, and no items at all. -/
theorem GetMenuItems_all_or_nothing (intSize : Nat) (variants : List (String × Variant)) :
    ((∀ kv ∈ variants, (stringNumberToCents intSize kv.2.Price).2 = none) →
      ∃ items, GetMenuItems intSize none variants = (some items, none) ∧
        items.length = variants.length ∧
        items = variants.map (fun kv =>
          { Code := kv.2.Code, Name := kv.2.Name,
            PriceCents := (stringNumberToCents intSize kv.2.Price).1 })) ∧
    ((∃ kv ∈ variants, (stringNumberToCents intSize kv.2.Price).2 ≠ none) →
      ∃ e, GetMenuItems intSize none variants = (none, some e) ∧
        ∃ kv ∈ variants, (stringNumberToCents intSize kv.2.Price).2 = some e) := by
  constructor
  · intro h
    refine ⟨_, ?_, ?_, rfl⟩
    · unfold GetMenuItems
      simp only
      rw [menuItemsLoop_ok intSize variants [] h]
      simp
    · simp
  · intro h
    unfold GetMenuItems
    exact menuItemsLoop_error intSize variants [] h

theorem GetMenuItems_all_or_nothing_witness :
    (∃ kv ∈ [("a", ({ Code := "A", Price := "2.99", Name := "n" } : Variant)),
             ("b", { Code := "B", Price := "3..99", Name := "m" })],
        (stringNumberToCents 64 kv.2.Price).2 ≠ none) ∧
      ∃ e, GetMenuItems 64 none
          [("a", { Code := "A", Price := "2.99", Name := "n" }),
           ("b", { Code := "B", Price := "3..99", Name := "m" })] = (none, some e) ∧
        ∃ kv ∈ [("a", ({ Code := "A", Price := "2.99", Name := "n" } : Variant)),
                ("b", { Code := "B", Price := "3..99", Name := "m" })],
          (stringNumberToCents 64 kv.2.Price).2 = some e :=
  ⟨by decide, (GetMenuItems_all_or_nothing 64 _).2 (by decide)⟩

/-- C4: for every decoded price-order response whose status is an integer
other than -1, `PriceOrder` returns `OrderPrice{ID, DeliveryCents, TaxCents,
CustomerCents}` with the response's order id and the cents conversions of its
delivery fee, tax and customer total; with delivery fee `"2.99"`, tax `1.08`
and customer total `22.06` the cents are 299, 108 and 2206.  If one of the
three conversions fails, `PriceOrder` returns that error and no `OrderPrice`. -/
theorem PriceOrder_converts (intSize : Nat) (hi : intSize = 32 ∨ intSize = 64)
    (resp : PriceOrderResponse) (z : Int) (hz : decimalInt resp.Status.data = some z)
    (hlo : -(2 ^ 63) ≤ z) (hhi : z < 2 ^ 63) (hne : z ≠ -1) :
    (∀ d t c,
      stringNumberToCents intSize resp.Order.AmountsBreakdown.DeliveryFee = (d, none) →
      stringNumberToCents intSize resp.Order.AmountsBreakdown.Tax = (t, none) →
      stringNumberToCents intSize resp.Order.AmountsBreakdown.Customer = (c, none) →
      PriceOrder intSize none resp =
        (some { ID := resp.Order.OrderID, DeliveryCents := d, TaxCents := t,
                CustomerCents := c }, none)) ∧
    (∀ v e,
      stringNumberToCents intSize resp.Order.AmountsBreakdown.DeliveryFee = (v, some e) →
      PriceOrder intSize none resp = (none, some e)) ∧
    (∀ d v e,
      stringNumberToCents intSize resp.Order.AmountsBreakdown.DeliveryFee = (d, none) →
      stringNumberToCents intSize resp.Order.AmountsBreakdown.Tax = (v, some e) →
      PriceOrder intSize none resp = (none, some e)) ∧
    (∀ d t v e,
      stringNumberToCents intSize resp.Order.AmountsBreakdown.DeliveryFee = (d, none) →
      stringNumberToCents intSize resp.Order.AmountsBreakdown.Tax = (t, none) →
      stringNumberToCents intSize resp.Order.AmountsBreakdown.Customer = (v, some e) →
      PriceOrder intSize none resp = (none, some e)) ∧
    (resp.Order.AmountsBreakdown.DeliveryFee = "2.99" →
      resp.Order.AmountsBreakdown.Tax = "1.08" →
      resp.Order.AmountsBreakdown.Customer = "22.06" →
      PriceOrder intSize none resp =
        (some { ID := resp.Order.OrderID, DeliveryCents := 299, TaxCents := 108,
                CustomerCents := 2206 }, none)) := by
  have hs := Int64_of_decimalInt intSize resp.Status z hz
  rw [if_pos ⟨hlo, hhi⟩] at hs
  have hp := PriceOrder_of_status intSize resp z hs
  rw [if_neg hne] at hp
  have hall : ∀ d t c,
      stringNumberToCents intSize resp.Order.AmountsBreakdown.DeliveryFee = (d, none) →
      stringNumberToCents intSize resp.Order.AmountsBreakdown.Tax = (t, none) →
      stringNumberToCents intSize resp.Order.AmountsBreakdown.Customer = (c, none) →
      PriceOrder intSize none resp =
        (some { ID := resp.Order.OrderID, DeliveryCents := d, TaxCents := t,
                CustomerCents := c }, none) := by
    intro d t c hd ht hc
    rw [hp]
    simp only [hd, ht, hc]
  refine ⟨hall, ?_, ?_, ?_, ?_⟩
  · intro v e hd
    rw [hp]
    simp only [hd]
  · intro d v e hd ht
    rw [hp]
    simp only [hd, ht]
  · intro d t v e hd ht hc
    rw [hp]
    simp only [hd, ht, hc]
  · intro hd ht hc
    apply hall
    · rw [hd]
      rcases hi with rfl | rfl <;> decide
    · rw [ht]
      rcases hi with rfl | rfl <;> decide
    · rw [hc]
      rcases hi with rfl | rfl <;> decide

theorem PriceOrder_converts_witness :
    (64 = 32 ∨ 64 = 64) ∧ decimalInt "0".data = some 0 ∧
      PriceOrder 64 none
          { Status := "0",
            Order := { OrderID := "A1",
                       AmountsBreakdown :=
                         { DeliveryFee := "2.99", Tax := "1.08", Customer := "22.06" } } } =
        (some { ID := "A1", DeliveryCents := 299, TaxCents := 108, CustomerCents := 2206 },
          none) ∧
      PriceOrder 64 none
          { Status := "0",
            Order := { OrderID := "A1",
                       AmountsBreakdown :=
                         { DeliveryFee := "2.99", Tax := "1.0.8", Customer := "22.06" } } } =
        (none, some (GoError.NumError "Atoi" "10.8" ErrKind.ErrSyntax)) :=
  ⟨by decide, by decide,
    (PriceOrder_converts 64 (by decide) _ 0 (by decide) (by decide) (by decide)
      (by decide)).2.2.2.2 rfl rfl rfl,
    (PriceOrder_converts 64 (by decide) _ 0 (by decide) (by decide) (by decide)
      (by decide)).2.2.1 299 0 _ (by decide) (by decide)⟩

/-- C10: for every decoded price-order response whose status is absent (the
empty number literal) or is not a base-10 integer representable as `int64`
(such as `1.5`), `PriceOrder` returns an error and no `OrderPrice`, even when
the order id and the three amounts are present and convertible; `PriceOrder`
returns an `OrderPrice` only if the status writes an integer other than -1. -/
theorem PriceOrder_status_not_integer (intSize : Nat) (resp : PriceOrderResponse) :
    (resp.Status = "" → ∃ e, PriceOrder intSize none resp = (none, some e)) ∧
    ((¬ ∃ z, decimalInt resp.Status.data = some z ∧ -(2 ^ 63) ≤ z ∧ z < 2 ^ 63) →
      ∃ e, PriceOrder intSize none resp = (none, some e)) ∧
    (resp.Status = "1.5" → ∃ e, PriceOrder intSize none resp = (none, some e)) ∧
    (∀ p, (PriceOrder intSize none resp).1 = some p →
      ∃ z, decimalInt resp.Status.data = some z ∧ -(2 ^ 63) ≤ z ∧ z < 2 ^ 63 ∧ z ≠ -1) := by
  have hfail : (¬ ∃ z, decimalInt resp.Status.data = some z ∧ -(2 ^ 63) ≤ z ∧ z < 2 ^ 63) →
      ∃ e, PriceOrder intSize none resp = (none, some e) := by
    intro hno
    obtain ⟨v, e, hv⟩ := Int64_fails intSize resp.Status hno
    exact ⟨e, PriceOrder_of_status_error intSize resp v e hv⟩
  refine ⟨?_, hfail, ?_, ?_⟩
  · intro hempty
    apply hfail
    rintro ⟨z, hz, -⟩
    rw [hempty] at hz
    cases hz
  · intro h15
    apply hfail
    rintro ⟨z, hz, -⟩
    rw [h15] at hz
    have hn : decimalInt "1.5".data = none := by decide
    rw [hn] at hz
    cases hz
  · intro p hp
    by_cases hex : ∃ z, decimalInt resp.Status.data = some z ∧ -(2 ^ 63) ≤ z ∧ z < 2 ^ 63
    · obtain ⟨z, hz, hlo, hhi⟩ := hex
      refine ⟨z, hz, hlo, hhi, ?_⟩
      intro hm1
      have hs := Int64_of_decimalInt intSize resp.Status z hz
      rw [if_pos ⟨hlo, hhi⟩] at hs
      rw [PriceOrder_of_status intSize resp z hs, if_pos hm1] at hp
      cases hp
    · obtain ⟨e, he⟩ := hfail hex
      rw [he] at hp
      cases hp

theorem PriceOrder_status_not_integer_witness :
    (∃ e, PriceOrder 64 none
          { Status := "",
            Order := { OrderID := "A1",
                       AmountsBreakdown :=
                         { DeliveryFee := "2.99", Tax := "1.08", Customer := "22.06" } } } =
        (none, some e)) ∧
    (∃ e, PriceOrder 64 none
          { Status := "1.5",
            Order := { OrderID := "A1",
                       AmountsBreakdown :=
                         { DeliveryFee := "2.99", Tax := "1.08", Customer := "22.06" } } } =
        (none, some e)) :=
  ⟨(PriceOrder_status_not_integer 64 _).1 rfl, (PriceOrder_status_not_integer 64 _).2.2.1 rfl⟩

/-- C7: for every products map, in whatever order `range` visits its entries,
the `Products` list of the request has exactly one entry per (code, quantity)
pair, each carrying that `Code` and `Qty` together with `ID = 1`,
`isNew = true` and `AutoRemove = false`; reading the (code, quantity) pairs
back from the list gives the pairs of the map, and two visiting orders of one
map give the same pairs up to order. -/
theorem reqProducts_round_trip (products : List (String × Int)) :
    (reqProducts products).length = products.length ∧
    reqProducts products =
      products.map (fun p =>
        [("Code", Value.str p.1), ("ID", Value.int 1), ("isNew", Value.bool true),
         ("Qty", Value.int p.2), ("AutoRemove", Value.bool false)]) ∧
    (reqProducts products).filterMap readProduct = products ∧
    (∀ other : List (String × Int), other.Perm products →
      ((reqProducts other).filterMap readProduct).Perm
        ((reqProducts products).filterMap readProduct)) := by
  refine ⟨?_, reqProducts_eq_map products, filterMap_readProduct products, ?_⟩
  · rw [reqProducts_eq_map, List.length_map]
  · intro other hperm
    rw [filterMap_readProduct, filterMap_readProduct]
    exact hperm

theorem reqProducts_round_trip_witness :
    [("B", (2 : Int)), ("P14IRECZ", 1)].Perm [("P14IRECZ", 1), ("B", 2)] ∧
      ((reqProducts [("B", 2), ("P14IRECZ", 1)]).filterMap readProduct).Perm
        ((reqProducts [("P14IRECZ", 1), ("B", 2)]).filterMap readProduct) :=
  ⟨List.Perm.swap _ _ _,
    (reqProducts_round_trip [("P14IRECZ", 1), ("B", 2)]).2.2.2 [("B", 2), ("P14IRECZ", 1)]
      (List.Perm.swap _ _ _)⟩

end pizza
